import Mathlib

/-!
Verification development for `scripts/benchmark_rag.py`, a benchmarking script
that compares token usage between a retrieval-augmented (RAG) context
construction and a naive whole-file-inclusion approach.

The script is embedded shallowly:

* `count_tokens` models `count_tokens` (line 19): `len(text.split())`, i.e.
  Python whitespace-run splitting followed by a length count.  Whitespace is
  modelled by `Char.isWhitespace` (space, tab, CR, LF), which agrees with
  Python's splitting behaviour on all ASCII inputs relevant here.
* `parseStep` / `parseChunks` / `run_parse` model the output-scraping loop of
  `run_indexer_search` (lines 46-71); the external subprocess invocation is
  abstracted by `InvocationResult` (success carrying stdout, non-zero exit
  carrying stderr, or a raised exception).
* `get_file_contents` models `get_file_contents` (lines 76-100); the
  filesystem is abstracted as a map `String → FsEntry` (readable file content,
  missing, or unreadable).
* `benchmark_rag_approach`, `benchmark_naive_approach`, `relevant_files`,
  `compare_tokens` and `main` model the remaining functions; Python float
  division in the report is modelled by exact rational arithmetic (`Rat`),
  which is faithful on every value the claims mention.
-/

set_option maxHeartbeats 1000000
set_option linter.unnecessarySeqFocus false

/-! ## Python-faithful string primitives over `List Char` -/

/-- Python `str.split()` (no separator): scan the characters, accumulating the
current non-whitespace run in `acc` (reversed) and emitting it when a
whitespace character or the end of the string is reached. -/
def splitWsAux : List Char → List Char → List (List Char)
  | acc, [] => if acc.isEmpty then [] else [acc.reverse]
  | acc, c :: cs =>
    if c.isWhitespace then
      if acc.isEmpty then splitWsAux [] cs else acc.reverse :: splitWsAux [] cs
    else splitWsAux (c :: acc) cs

/-- `count_tokens` (source lines 19-24): `len(text.split())`. -/
def count_tokens (text : String) : Nat :=
  (splitWsAux [] text.data).length

/-- Specification-side counter for C3: the number of maximal non-whitespace
runs, counted by charging one at each character that starts a run (a
non-whitespace character whose scan state says no run is currently open). -/
def countRunsAux : Bool → List Char → Nat
  | _, [] => 0
  | inRun, c :: cs =>
    if c.isWhitespace then countRunsAux false cs
    else (if inRun then 0 else 1) + countRunsAux true cs

/-- The number of maximal non-whitespace runs in a string. -/
def countRuns (s : String) : Nat := countRunsAux false s.data

/-- Scan state (are we inside a non-whitespace run?) after processing a list
of characters. -/
def runState : Bool → List Char → Bool
  | b, [] => b
  | _, c :: cs => runState (!c.isWhitespace) cs

/-! ## The comparator (source `main`, lines 202-217) -/

/-- The efficiency figure printed by the report: a finite ratio, or the
`float('inf')` branch of line 212. -/
inductive Efficiency where
  | ratio (q : Rat)
  | infinite
deriving DecidableEq

/-- Outcome of the comparison block of `main`: either the incomplete-comparison
message (line 217), or a report carrying the savings, the savings percentage,
and the efficiency multiplier when one is printed (lines 203-215). -/
inductive CompareOutcome where
  | incomplete
  | report (savings : Int) (savingsPercent : Rat) (efficiency : Option Efficiency)
deriving DecidableEq

/-- The comparison logic of `main` (lines 202-217), verbatim: both costs must
be strictly positive, savings and percentage are computed, and the efficiency
multiplier is printed only in the `savings > 0` branch (where the
`if rag_tokens > 0 else float('inf')` guard of line 212 is kept as written in
the source). -/
def compare_tokens (rag_tokens naive_tokens : Nat) : CompareOutcome :=
  if 0 < rag_tokens ∧ 0 < naive_tokens then
    let savings : Int := (naive_tokens : Int) - (rag_tokens : Int)
    let savings_percent : Rat := ((savings : Rat) / (naive_tokens : Rat)) * 100
    if 0 < savings then
      CompareOutcome.report savings savings_percent
        (some (if 0 < rag_tokens then
                 Efficiency.ratio ((naive_tokens : Rat) / (rag_tokens : Rat))
               else Efficiency.infinite))
    else
      CompareOutcome.report savings savings_percent none
  else CompareOutcome.incomplete

/-- The efficiency field reported by an outcome, if any. -/
def reportedEfficiency : CompareOutcome → Option Efficiency
  | CompareOutcome.incomplete => none
  | CompareOutcome.report _ _ e => e

/-! ## Python-faithful substring primitives -/

/-- Python `hay.startswith(needle)`, over character lists. -/
def isPrefixL : List Char → List Char → Bool
  | [], _ => true
  | _ :: _, [] => false
  | a :: as, b :: bs => decide (a = b) && isPrefixL as bs

/-- Python substring containment `needle in hay`, over character lists. -/
def containsSubL (needle : List Char) : List Char → Bool
  | [] => needle.isEmpty
  | c :: rest => isPrefixL needle (c :: rest) || containsSubL needle rest

/-- Python `s.lower()`, modelled characterwise (faithful on ASCII, which covers
every keyword the script tests). -/
def lowerData (s : String) : List Char := s.data.map Char.toLower

/-! ## Naive strategy (source `benchmark_naive_approach`, lines 128-173) -/

/-- `any(word in query_lower for word in words)` (lines 139, 141, 143, 145). -/
def groupMatches (query_lower : List Char) (words : List String) : Bool :=
  words.any fun w => containsSubL w.data query_lower

def cliWords : List String := ["cli", "command", "argument", "clap"]

def voiceWords : List String := ["voice", "audio", "record"]

def llmWords : List String := ["llm", "gemini", "api"]

def indexWords : List String := ["index", "search", "chunk", "embed"]

def cliFiles : List String := ["src/main.rs", "src/bin/indexer.rs"]

def voiceFiles : List String := ["src/voice/mod.rs", "src/voice/capture.rs"]

def llmFiles : List String := ["src/llm/gemini_client.rs"]

def indexFiles : List String :=
  ["src/index/chunker.rs", "src/index/embedder.rs", "src/index/vector_store.rs"]

def defaultFiles : List String := ["src/main.rs", "Cargo.toml", "README.md"]

/-- Python `list(dict.fromkeys(xs))` (line 153): remove duplicates keeping the
first occurrence of each element. -/
def dedupKeepFirst (seen : List String) : List String → List String
  | [] => []
  | x :: xs => if x ∈ seen then dedupKeepFirst seen xs else x :: dedupKeepFirst (x :: seen) xs

/-- Candidate-file selection of `benchmark_naive_approach` (lines 136-153):
each matching keyword group extends the list in fixed group order, the default
list is used when nothing matched, and duplicates are removed preserving
first-occurrence order. -/
def relevant_files (query : String) : List String :=
  let query_lower := lowerData query
  let raw :=
    (if groupMatches query_lower cliWords then cliFiles else []) ++
    (if groupMatches query_lower voiceWords then voiceFiles else []) ++
    (if groupMatches query_lower llmWords then llmFiles else []) ++
    (if groupMatches query_lower indexWords then indexFiles else [])
  let files := if raw.isEmpty then defaultFiles else raw
  dedupKeepFirst [] files

/-! ## File gathering (source `get_file_contents`, lines 76-100) -/

/-- Abstract filesystem entry for a candidate path: an existing readable text
file, a missing path (line 96), or a file whose read raises an exception
caught on lines 97-98. -/
inductive FsEntry where
  | file (content : String)
  | missing
  | unreadable (msg : String)

/-- An entry of the `contents` list built by `get_file_contents`
(lines 90-94). -/
structure FileContent where
  file : String
  content : String
  size : Nat
deriving DecidableEq

/-- Loop body of `get_file_contents` (lines 84-98): on success append the
content entry, otherwise append the printed warning and continue. -/
def gfcStep (fs : String → FsEntry) (acc : List FileContent × List String)
    (file_path : String) : List FileContent × List String :=
  match fs file_path with
  | FsEntry.file content => (acc.1 ++ [⟨file_path, content, content.length⟩], acc.2)
  | FsEntry.missing => (acc.1, acc.2 ++ ["Warning: File " ++ file_path ++ " not found"])
  | FsEntry.unreadable msg =>
      (acc.1, acc.2 ++ ["Error reading " ++ file_path ++ ": " ++ msg])

/-- `get_file_contents` (lines 76-100): first component the collected content
entries, second component the warnings printed along the way. -/
def get_file_contents (fs : String → FsEntry) (file_paths : List String) :
    List FileContent × List String :=
  file_paths.foldl (gfcStep fs) ([], [])

/-- Spec-side description of C8: the content entry produced for a path, when
it exists and is readable. -/
def contentOf (fs : String → FsEntry) (p : String) : Option FileContent :=
  match fs p with
  | FsEntry.file c => some ⟨p, c, c.length⟩
  | _ => none

/-- Spec-side description of C8: the warning printed for a missing or
unreadable path. -/
def warnOf (fs : String → FsEntry) (p : String) : Option String :=
  match fs p with
  | FsEntry.file _ => none
  | FsEntry.missing => some ("Warning: File " ++ p ++ " not found")
  | FsEntry.unreadable msg => some ("Error reading " ++ p ++ ": " ++ msg)

/-- One file section of the naive context (lines 163-164). -/
def fileSection (fi : FileContent) : String :=
  "--- File: " ++ fi.file ++ " ---\n" ++ fi.content ++ "\n\n"

/-- Naive context assembly (lines 159-164). -/
def naive_context (query : String) (file_contents : List FileContent) : String :=
  "Query: " ++ query ++ "\n\nEntire file contents:\n\n" ++
    String.join (file_contents.map fileSection)

/-- `benchmark_naive_approach` (lines 128-173): returns the pair
(token count, context). -/
def benchmark_naive_approach (query : String) (fs : String → FsEntry) : Nat × String :=
  let file_contents := (get_file_contents fs (relevant_files query)).1
  let naive_ctx := naive_context query file_contents
  (count_tokens naive_ctx, naive_ctx)

/-! ## Helper lemmas for token counting -/

lemma splitWsAux_length : ∀ (l acc : List Char),
    (splitWsAux acc l).length
      = countRunsAux (!acc.isEmpty) l + (if acc.isEmpty then 0 else 1) := by
  intro l
  induction l with
  | nil => intro acc; cases acc <;> simp [splitWsAux, countRunsAux]
  | cons c cs ih =>
    intro acc
    by_cases hws : c.isWhitespace
    · cases acc <;> simp [splitWsAux, countRunsAux, hws, ih []]
    · cases acc <;> simp [splitWsAux, countRunsAux, hws, ih (c :: _), ih (c :: _)] <;> omega

lemma count_tokens_eq_countRuns (s : String) : count_tokens s = countRuns s := by
  have h := splitWsAux_length s.data []
  simpa [count_tokens, countRuns] using h

lemma countRunsAux_append : ∀ (x : List Char) (b : Bool) (y : List Char),
    countRunsAux b (x ++ y) = countRunsAux b x + countRunsAux (runState b x) y := by
  intro x
  induction x with
  | nil => intro b y; simp [countRunsAux, runState]
  | cons c cs ih =>
    intro b y
    by_cases h : c.isWhitespace
    · simp [countRunsAux, runState, h, ih]
    · simp [countRunsAux, runState, h, ih, Nat.add_assoc]

/-! ## Claim C3 -/

/-- C3: for every input string the cost metric returns a non-negative integer
(inherent in `Nat`) equal to the number of maximal non-whitespace runs of the
string; `count_tokens "" = 0` and `count_tokens "a b  c" = 3`.  Totality (no
failure mode on any string) is inherent in `count_tokens` being a total Lean
function. -/
theorem C3_count_tokens :
    (∀ s : String, count_tokens s = countRuns s) ∧
    count_tokens "" = 0 ∧ count_tokens "a b  c" = 3 :=
  ⟨count_tokens_eq_countRuns, by decide, by decide⟩

/-! ## Claim C1 -/

/-- C1: when both strategy costs are strictly positive, the comparator reports
savings = naiveCost − ragCost, savingsPercent = savings / naiveCost × 100 and,
exactly when savings > 0, the efficiency multiplier naiveCost / ragCost; in
particular for ragCost = 100 and naiveCost = 400 it reports savings = 300,
percent = 75 and efficiency ratio 4. -/
theorem C1_comparator :
    (∀ rag naive : Nat, 0 < rag → 0 < naive →
      compare_tokens rag naive =
        CompareOutcome.report ((naive : Int) - (rag : Int))
          (((((naive : Int) - (rag : Int)) : Int) : Rat) / (naive : Rat) * 100)
          (if 0 < (naive : Int) - (rag : Int) then
             some (Efficiency.ratio ((naive : Rat) / (rag : Rat)))
           else none)) ∧
    compare_tokens 100 400
      = CompareOutcome.report 300 75 (some (Efficiency.ratio 4)) ∧
    (∀ rag naive : Nat, ∀ s p e, compare_tokens rag naive = CompareOutcome.report s p e →
      (e.isSome ↔ 0 < s)) := by
  refine ⟨?_, ?_, ?_⟩
  · intro rag naive hr hn
    simp only [compare_tokens, if_pos (And.intro hr hn)]
    by_cases hs : 0 < (naive : Int) - (rag : Int)
    · rw [if_pos hs, if_pos hs, if_pos hr]
    · rw [if_neg hs, if_neg hs]
  · norm_num [compare_tokens, CompareOutcome.report.injEq, Efficiency.ratio.injEq]
  · intro rag naive s p e h
    simp only [compare_tokens] at h
    split at h
    · split at h
      · rw [CompareOutcome.report.injEq] at h
        obtain ⟨hs, hp, he⟩ := h
        subst hs; subst he
        simp only [Option.isSome_some, true_iff]
        omega
      · rw [CompareOutcome.report.injEq] at h
        obtain ⟨hs, hp, he⟩ := h
        subst hs; subst he
        simp only [Option.isSome_none, Bool.false_eq_true, false_iff]
        omega
    · exact absurd h (by simp)

/-- Witness for C1 at ragCost = 100, naiveCost = 400. -/
theorem C1_comparator_witness :
    compare_tokens 100 400 = CompareOutcome.report 300 75 (some (Efficiency.ratio 4)) := by
  have h := C1_comparator.1 100 400 (by norm_num) (by norm_num)
  rw [h]
  norm_num [CompareOutcome.report.injEq, Efficiency.ratio.injEq]

/-! ## Claim C2 -/

/-- C2 counterexample: with ragCost = 0 and naiveCost = 400 the comparator does
not report any efficiency ratio at all — in particular it does not report an
unbounded/infinite one as the claim states; it reports the comparison as
incomplete (the `float('inf')` guard on line 212 sits inside the
`rag_tokens > 0` branch and is unreachable). -/
theorem C2_unbounded_counterexample :
    reportedEfficiency (compare_tokens 0 400) = none ∧
    compare_tokens 0 400 = CompareOutcome.incomplete := by
  exact ⟨rfl, rfl⟩

/-- C2 (amended): if the retrieval cost is exactly 0 — or either cost is 0 —
the comparator reports the comparison as incomplete/failed instead of
computing any ratio, and no division-by-zero error is raised (the function is
total); the unbounded/infinite efficiency value is never reported on any
input, because the `float('inf')` branch is unreachable. -/
theorem C2_incomplete_amended :
    (∀ rag naive : Nat, rag = 0 ∨ naive = 0 →
      compare_tokens rag naive = CompareOutcome.incomplete) ∧
    (∀ rag naive : Nat, ∀ s p,
      compare_tokens rag naive ≠ CompareOutcome.report s p (some Efficiency.infinite)) := by
  constructor
  · intro rag naive h
    have : ¬ (0 < rag ∧ 0 < naive) := by omega
    simp only [compare_tokens, if_neg this]
  · intro rag naive s p h
    simp only [compare_tokens] at h
    split at h
    · rename_i hpos
      split at h
      · rw [CompareOutcome.report.injEq] at h
        obtain ⟨-, -, he⟩ := h
        rw [if_pos hpos.1] at he
        exact Efficiency.noConfusion (Option.some.injEq _ _ ▸ he)
      · rw [CompareOutcome.report.injEq] at h
        exact Option.noConfusion h.2.2
    · exact CompareOutcome.noConfusion h

/-- Witness for C2 (amended) at ragCost = 0, naiveCost = 400. -/
theorem C2_incomplete_witness :
    compare_tokens 0 400 = CompareOutcome.incomplete :=
  C2_incomplete_amended.1 0 400 (Or.inl rfl)

/-! ## Retrieval strategy (source `run_indexer_search`, lines 26-74) -/

/-- The apostrophe character, the separator of `line.split("'")` (line 56). -/
def apos : Char := Char.ofNat 39

/-- The newline character, the separator of `result.stdout.split('\n')`
(line 49). -/
def nlChar : Char := Char.ofNat 10

/-- Python `line.strip()`: drop whitespace from both ends. -/
def stripL (l : List Char) : List Char :=
  ((l.dropWhile Char.isWhitespace).reverse.dropWhile Char.isWhitespace).reverse

def scoreMarker : List Char := "Score:".data

def inMarker : List Char := "in ".data

def linesMarker : List Char := "Lines".data

def colonSpace : List Char := ": ".data

/-- Python `s.split(sep)` for a one-character separator: split at every
occurrence, keeping empty segments (the result is always non-empty). -/
def splitOnChar (sep : Char) : List Char → List (List Char)
  | [] => [[]]
  | c :: cs =>
    let r := splitOnChar sep cs
    if c = sep then [] :: r else (c :: r.headD []) :: r.tail

/-- Python `line[line.find(sub) + sub.length :]` combined with the
`find ≥ 0` test: the suffix after the first occurrence of `sub`, if any
(lines 65-67). -/
def findSubSuffix (needle : List Char) : List Char → Option (List Char)
  | [] => none
  | c :: rest =>
    if isPrefixL needle (c :: rest) then some ((c :: rest).drop needle.length)
    else findSubSuffix needle rest

/-- Python `parts[-1]` (total: the scripts only uses it on non-empty lists,
and `splitOnChar` never returns an empty list). -/
def pyLast : List (List Char) → List Char
  | [] => []
  | [a] => a
  | _ :: rest => pyLast rest

/-- A parsed code chunk (the dict built on lines 58-62). -/
structure Chunk where
  name : String
  file : String
  code : String
deriving DecidableEq

/-- Line 53: `line.strip().startswith("1.") or ... or ...startswith("5.")`
(the source calls `line.strip()` for each test). -/
def isRankLine (line : List Char) : Bool :=
  isPrefixL "1.".data (stripL line) || isPrefixL "2.".data (stripL line) ||
    isPrefixL "3.".data (stripL line) || isPrefixL "4.".data (stripL line) ||
    isPrefixL "5.".data (stripL line)

/-- One iteration of the parsing loop of `run_indexer_search` (lines 52-69):
given the current pending chunk, return the new pending chunk and the chunks
appended by this line (zero or one). -/
def parseStep (cur : Option Chunk) (line : List Char) : Option Chunk × List Chunk :=
  if isRankLine line then
    if containsSubL scoreMarker line then
      let parts := splitOnChar apos line
      if 2 ≤ parts.length then
        (some { name := String.mk (parts.getD 1 []),
                file := if containsSubL inMarker line then String.mk (pyLast parts)
                        else "unknown",
                code := "" }, [])
      else (cur, [])
    else (cur, [])
  else if isPrefixL linesMarker (stripL line) then
    match cur with
    | some c =>
      match findSubSuffix colonSpace line with
      | some code_suffix => (none, [{ c with code := String.mk code_suffix }])
      | none => (cur, [])
    | none => (cur, [])
  else (cur, [])

/-- The full parsing loop (lines 48-71), emitting chunks in append order. -/
def parseChunks : List (List Char) → Option Chunk → List Chunk
  | [], _ => []
  | line :: rest, cur =>
    (parseStep cur line).2 ++ parseChunks rest (parseStep cur line).1

/-- Parsing of the raw subprocess stdout: split on newlines, then scan
(lines 48-71). -/
def run_parse (stdout : String) : List Chunk :=
  parseChunks (splitOnChar nlChar stdout.data) none

/-- Abstract result of the external `cargo run --bin indexer` invocation:
success with captured stdout, a non-zero exit status with captured stderr
(line 42), or a raised exception caught on line 72. -/
inductive InvocationResult where
  | success (stdout : String)
  | failure (stderr : String)
  | exception (msg : String)

/-- `run_indexer_search` (lines 26-74): the parsed chunks together with the
error lines printed on the failure paths. -/
def run_indexer_search (r : InvocationResult) : List Chunk × List String :=
  match r with
  | InvocationResult.success stdout => (run_parse stdout, [])
  | InvocationResult.failure stderr => ([], ["Error running indexer: " ++ stderr])
  | InvocationResult.exception msg => ([], ["Error running search: " ++ msg])

/-- One chunk section of the RAG context (lines 118-119). -/
def chunkSection (i : Nat) (c : Chunk) : String :=
  "--- Chunk " ++ Nat.repr i ++ ": " ++ c.name ++ " from " ++ c.file ++ " ---\n" ++
    c.code ++ "\n\n"

/-- `enumerate(chunks, 1)` concatenation of chunk sections (lines 117-119). -/
def chunkSections : Nat → List Chunk → String
  | _, [] => ""
  | i, c :: cs => chunkSection i c ++ chunkSections (i + 1) cs

/-- RAG context assembly (lines 116-119). -/
def rag_context_of (query : String) (chunks : List Chunk) : String :=
  "Query: " ++ query ++ "\n\nRelevant code chunks:\n\n" ++ chunkSections 1 chunks

/-- `benchmark_rag_approach` (lines 102-126): empty chunk list yields cost 0
and empty context (lines 111-113). -/
def benchmark_rag_approach (query : String) (r : InvocationResult) : Nat × String :=
  let chunks := (run_indexer_search r).1
  if chunks.isEmpty then (0, "")
  else
    let rag_ctx := rag_context_of query chunks
    (count_tokens rag_ctx, rag_ctx)

/-- `main` (lines 175-233): `argv` models `sys.argv` (program name included);
returns the exit status and, when the run proceeds, the comparison outcome.
(Named `benchmark_main` because Lean reserves the name `main` for an `IO`
entry point.) -/
def benchmark_main (argv : List String) (r : InvocationResult) (fs : String → FsEntry) :
    Nat × Option CompareOutcome :=
  if argv.length ≠ 2 then (1, none)
  else
    let query := argv.getD 1 ""
    (0, some (compare_tokens (benchmark_rag_approach query r).1
                             (benchmark_naive_approach query fs).1))

/-! ## Well-formed search output (specification side, for C4)

The indexer binary is an external collaborator; the spec describes its output
as a ranked list whose entries carry a "N."-prefixed header line with a quoted
name, a "Score:" marker and a source-file annotation, followed by a
"Lines ...: <code>" body line.  `SearchEntry` realises that shape concretely
(header `N. 'name' Score: <score> in '<file>` and body
`Lines <range>: <body>`), and `EntryWF` states the sanity conditions under
which the scraping parser can recover the fields. -/

/-- A ranked search-output entry: rank 1..5, quoted name, score text,
source-file annotation, line range and code body. -/
structure SearchEntry where
  rank : Nat
  name : String
  score : String
  file : String
  range : String
  body : String

/-- The digit character of a rank. -/
def rankChar : Nat → Char
  | 1 => '1'
  | 2 => '2'
  | 3 => '3'
  | 4 => '4'
  | 5 => '5'
  | _ => '0'

/-- The "N. " prefix of a header line. -/
def headPrefix (r : Nat) : List Char := rankChar r :: ". ".data

/-- The segment of a header line between the name's closing quote and the
file's opening quote. -/
def scoreMid (score : String) : List Char :=
  " ".data ++ ("Score:".data ++ (" ".data ++ (score.data ++ (" ".data ++ "in ".data))))

/-- The header line `N. 'name' Score: <score> in '<file>`. -/
def entryHeader (e : SearchEntry) : List Char :=
  headPrefix e.rank ++ apos :: (e.name.data ++ apos :: (scoreMid e.score ++ apos :: e.file.data))

/-- The body line `Lines <range>: <body>`. -/
def entryBody (e : SearchEntry) : List Char :=
  linesMarker ++ (" ".data ++ (e.range.data ++ (colonSpace ++ e.body.data)))

/-- The two text lines of an entry. -/
def entryLines (e : SearchEntry) : List (List Char) := [entryHeader e, entryBody e]

/-- The chunk the parser should recover from a well-formed entry. -/
def toChunk (e : SearchEntry) : Chunk := ⟨e.name, e.file, e.body⟩

/-- Well-formedness of an entry: rank between 1 and 5, no apostrophe inside
name, score or file, no colon inside the line range, and no newline inside
any field (so the entry really occupies exactly two lines of the block). -/
def EntryWF (e : SearchEntry) : Prop :=
  1 ≤ e.rank ∧ e.rank ≤ 5 ∧
  apos ∉ e.name.data ∧ apos ∉ e.score.data ∧ apos ∉ e.file.data ∧
  (Char.ofNat 58) ∉ e.range.data ∧
  nlChar ∉ e.name.data ∧ nlChar ∉ e.score.data ∧ nlChar ∉ e.file.data ∧
  nlChar ∉ e.range.data ∧ nlChar ∉ e.body.data

instance (e : SearchEntry) : Decidable (EntryWF e) := by
  unfold EntryWF
  infer_instance

/-- Join lines with newline characters, reconstructing the stdout block. -/
def joinLines : List (List Char) → List Char
  | [] => []
  | [l] => l
  | l :: ls => l ++ nlChar :: joinLines ls

/-- A line the parser ignores: neither rank-shaped nor "Lines"-shaped. -/
def junkLine (l : List Char) : Bool :=
  !(isRankLine l) && !(isPrefixL linesMarker (stripL l))

/-- Five concrete well-formed entries, used in the C4 witness. -/
def sampleEntries : List SearchEntry :=
  [⟨1, "fn parse_args", "0.95", "src/main.rs", "10-20", "fn parse_args() -> Args"⟩,
   ⟨2, "fn run_indexer", "0.90", "src/bin/indexer.rs", "5-15", "fn run_indexer()"⟩,
   ⟨3, "fn chunk_file", "0.85", "src/index/chunker.rs", "1-30", "pub fn chunk_file(path: &Path)"⟩,
   ⟨4, "fn embed", "0.80", "src/index/embedder.rs", "8-14", "pub fn embed(text: &str)"⟩,
   ⟨5, "fn store", "0.75", "src/index/vector_store.rs", "3-9", "pub fn store(v: Vec<f32>)"⟩]

/-! ## Claim C8 -/

lemma get_file_contents_go (fs : String → FsEntry) :
    ∀ (paths : List String) (a : List FileContent) (b : List String),
      paths.foldl (gfcStep fs) (a, b)
        = (a ++ paths.filterMap (contentOf fs), b ++ paths.filterMap (warnOf fs)) := by
  intro paths
  induction paths with
  | nil => intro a b; simp
  | cons p ps ih =>
    intro a b
    cases hfp : fs p <;>
      simp [List.foldl_cons, gfcStep, contentOf, warnOf, hfp, ih]

/-- C8: for every filesystem and every candidate list, file gathering returns
content entries exactly for the existing readable paths, in the original
candidate order, and emits one warning for each missing or unreadable path;
it never aborts (`get_file_contents` is a total function). -/
theorem C8_file_gathering :
    ∀ (fs : String → FsEntry) (paths : List String),
      (get_file_contents fs paths).1 = paths.filterMap (contentOf fs) ∧
      (get_file_contents fs paths).2 = paths.filterMap (warnOf fs) := by
  intro fs paths
  rw [get_file_contents, get_file_contents_go]
  simp

/-! ## Claim C6 -/

/-- C6: the naive candidate selection depends only on which keyword groups
match (so it is invariant under moving keywords around inside the query), and
for a query matching exactly the cli group and the index group the candidate
list is exactly the concatenation of those two groups' lists (duplicate-free,
in fixed group order); concretely, "cli index" and "index cli" yield the same
list. -/
theorem C6_keyword_union :
    (∀ q1 q2 : String,
      groupMatches (lowerData q1) cliWords = groupMatches (lowerData q2) cliWords →
      groupMatches (lowerData q1) voiceWords = groupMatches (lowerData q2) voiceWords →
      groupMatches (lowerData q1) llmWords = groupMatches (lowerData q2) llmWords →
      groupMatches (lowerData q1) indexWords = groupMatches (lowerData q2) indexWords →
      relevant_files q1 = relevant_files q2) ∧
    (∀ q : String,
      groupMatches (lowerData q) cliWords = true →
      groupMatches (lowerData q) voiceWords = false →
      groupMatches (lowerData q) llmWords = false →
      groupMatches (lowerData q) indexWords = true →
      relevant_files q = cliFiles ++ indexFiles) ∧
    relevant_files "cli index" = relevant_files "index cli" := by
  refine ⟨?_, ?_, ?_⟩
  · intro q1 q2 h1 h2 h3 h4
    simp only [relevant_files, h1, h2, h3, h4]
  · intro q h1 h2 h3 h4
    simp only [relevant_files, h1, h2, h3, h4]
    decide
  · decide

/-- Witness for C6: the query "cli index" matches exactly the cli and index
groups and selects the union of their candidate lists. -/
theorem C6_keyword_union_witness :
    relevant_files "cli index" = cliFiles ++ indexFiles :=
  C6_keyword_union.2.1 "cli index" (by decide) (by decide) (by decide) (by decide)

/-! ## Claim C7 -/

/-- C7: for every query in which no keyword of any group occurs
(case-insensitively), the naive candidate list is exactly the fixed default
list (entry point, manifest, readme). -/
theorem C7_default_candidates :
    ∀ q : String,
      groupMatches (lowerData q) cliWords = false →
      groupMatches (lowerData q) voiceWords = false →
      groupMatches (lowerData q) llmWords = false →
      groupMatches (lowerData q) indexWords = false →
      relevant_files q = defaultFiles := by
  intro q h1 h2 h3 h4
  simp only [relevant_files, h1, h2, h3, h4]
  decide

/-- Witness for C7 at the keyword-free query "hello world". -/
theorem C7_default_candidates_witness :
    relevant_files "hello world" = defaultFiles :=
  C7_default_candidates "hello world" (by decide) (by decide) (by decide) (by decide)

/-! ## Claim C5 -/

/-- C5: on any failure of the external search invocation (non-zero exit or a
raised exception) the retrieval strategy logs an error line and returns an
empty chunk sequence — no fault propagates, since `run_indexer_search` is
total; and whenever zero chunks are parsed, `benchmark_rag_approach` yields
cost 0 with an empty context string. -/
theorem C5_retrieval_failsoft :
    (∀ e : String,
      (run_indexer_search (InvocationResult.failure e)).1 = [] ∧
      (run_indexer_search (InvocationResult.failure e)).2 = ["Error running indexer: " ++ e] ∧
      (run_indexer_search (InvocationResult.exception e)).1 = [] ∧
      (run_indexer_search (InvocationResult.exception e)).2 = ["Error running search: " ++ e]) ∧
    (∀ (q : String) (r : InvocationResult),
      (run_indexer_search r).1 = [] → benchmark_rag_approach q r = (0, "")) := by
  constructor
  · intro e; exact ⟨rfl, rfl, rfl, rfl⟩
  · intro q r h
    simp [benchmark_rag_approach, h]

/-- Witness for C5 at a failing invocation. -/
theorem C5_retrieval_failsoft_witness :
    benchmark_rag_approach "how do I" (InvocationResult.failure "boom") = (0, "") :=
  C5_retrieval_failsoft.2 "how do I" (InvocationResult.failure "boom") rfl

/-! ## Claim C9 -/

/-- C9: the CLI exits with status 1 (and no comparison is attempted) exactly
when the argument count is wrong; every single-argument invocation exits with
status 0 — including when the comparison is incomplete — since everything
after argument validation is total. -/
theorem C9_cli_exit :
    (∀ (argv : List String) (r : InvocationResult) (fs : String → FsEntry),
      argv.length ≠ 2 → benchmark_main argv r fs = (1, none)) ∧
    (∀ (argv : List String) (r : InvocationResult) (fs : String → FsEntry),
      argv.length = 2 → (benchmark_main argv r fs).1 = 0) := by
  constructor
  · intro argv r fs h; simp [benchmark_main, h]
  · intro argv r fs h; simp [benchmark_main, h]

/-- Witness for C9: zero query arguments exit 1; one query argument exits 0
even though both strategies fail (missing files, failing search). -/
theorem C9_cli_exit_witness :
    benchmark_main ["benchmark_rag.py"] (InvocationResult.failure "e")
      (fun _ => FsEntry.missing) = (1, none) ∧
    (benchmark_main ["benchmark_rag.py", "my query"] (InvocationResult.failure "e")
      (fun _ => FsEntry.missing)).1 = 0 :=
  ⟨C9_cli_exit.1 _ _ _ (by decide), C9_cli_exit.2 _ _ _ rfl⟩

/-! ## Claim C10 -/

lemma countRunsAux_naive_header (s : Bool) :
    countRunsAux s "\n\nEntire file contents:\n\n".data = 3 := by
  cases s <;> decide

lemma naive_context_tokens (q : String) (cs : List FileContent) :
    4 ≤ count_tokens (naive_context q cs) := by
  rw [count_tokens_eq_countRuns, countRuns, naive_context]
  have hd : ("Query: " ++ q ++ "\n\nEntire file contents:\n\n"
        ++ String.join (cs.map fileSection)).data
      = "Query: ".data ++ (q.data ++ ("\n\nEntire file contents:\n\n".data
        ++ (String.join (cs.map fileSection)).data)) := by
    simp [String.data_append, List.append_assoc]
  rw [hd, countRunsAux_append, countRunsAux_append, countRunsAux_append]
  have h1 : countRunsAux false "Query: ".data = 1 := by decide
  have h2 : runState false "Query: ".data = false := by decide
  rw [h2, h1, countRunsAux_naive_header]
  omega

/-- C10: the naive strategy's cost is at least 4 for every query and every
filesystem, because the assembled context always starts with the fixed header
"Query: ...\n\nEntire file contents:\n\n"; hence an incomplete comparison can
only be caused by the retrieval cost being 0, never by the naive cost. -/
theorem C10_naive_positive :
    (∀ (q : String) (fs : String → FsEntry), 4 ≤ (benchmark_naive_approach q fs).1) ∧
    (∀ (rag : Nat) (q : String) (fs : String → FsEntry),
      compare_tokens rag (benchmark_naive_approach q fs).1 = CompareOutcome.incomplete →
      rag = 0) := by
  have hpos : ∀ (q : String) (fs : String → FsEntry),
      4 ≤ (benchmark_naive_approach q fs).1 := by
    intro q fs
    exact naive_context_tokens q _
  refine ⟨hpos, ?_⟩
  intro rag q fs h
  by_contra hne
  have hr : 0 < rag := Nat.pos_of_ne_zero hne
  have hn : 0 < (benchmark_naive_approach q fs).1 :=
    lt_of_lt_of_le (by norm_num) (hpos q fs)
  simp only [compare_tokens, if_pos (And.intro hr hn)] at h
  split at h
  · exact CompareOutcome.noConfusion h
  · exact CompareOutcome.noConfusion h

/-- Witness for C10: a keyword-free query on an empty filesystem still has
naive cost ≥ 4, and the incomplete outcome at rag cost 0 indeed forces 0. -/
theorem C10_naive_positive_witness :
    4 ≤ (benchmark_naive_approach "plain query" (fun _ => FsEntry.missing)).1 ∧
    (0 : Nat) = 0 :=
  ⟨C10_naive_positive.1 "plain query" (fun _ => FsEntry.missing),
   C10_naive_positive.2 0 "plain query" (fun _ => FsEntry.missing) (by decide)⟩

/-! ## Parser helper lemmas (for C4) -/

lemma isPrefixL_append_self : ∀ (p r : List Char), isPrefixL p (p ++ r) = true := by
  intro p
  induction p with
  | nil => intro r; rfl
  | cons a as ih => intro r; simp [isPrefixL, ih]

lemma isPrefixL_two (x y c d : Char) (w : List Char) :
    isPrefixL [x, y] (c :: d :: w) = (decide (x = c) && decide (y = d)) := by
  simp [isPrefixL]

lemma isPrefixL_cons_false {a b : Char} (h : a ≠ b) (s t : List Char) :
    isPrefixL (a :: s) (b :: t) = false := by
  simp [isPrefixL, h]

lemma containsSubL_of_prefix {n l : List Char} (h : isPrefixL n l = true) :
    containsSubL n l = true := by
  cases l with
  | nil =>
    cases n with
    | nil => rfl
    | cons a as => simp [isPrefixL] at h
  | cons c t => simp [containsSubL, h]

lemma containsSubL_cons {n t : List Char} (c : Char) (h : containsSubL n t = true) :
    containsSubL n (c :: t) = true := by
  simp [containsSubL, h]

lemma containsSubL_append_left {n l₂ : List Char} :
    ∀ l₁ : List Char, containsSubL n l₂ = true → containsSubL n (l₁ ++ l₂) = true := by
  intro l₁
  induction l₁ with
  | nil => intro h; simpa using h
  | cons c cs ih => intro h; simpa [containsSubL] using Or.inr (ih h)

lemma splitOnChar_sepFree (sep : Char) : ∀ l : List Char, sep ∉ l →
    splitOnChar sep l = [l] := by
  intro l
  induction l with
  | nil => intro _; rfl
  | cons c cs ih =>
    intro h
    have hc : ¬ c = sep := fun hc => h (hc ▸ List.mem_cons_self c cs)
    have hcs : sep ∉ cs := fun hm => h (List.mem_cons_of_mem c hm)
    simp [splitOnChar, hc, ih hcs]

lemma splitOnChar_append_sep (sep : Char) (l₂ : List Char) :
    ∀ l₁ : List Char, sep ∉ l₁ →
      splitOnChar sep (l₁ ++ sep :: l₂) = l₁ :: splitOnChar sep l₂ := by
  intro l₁
  induction l₁ with
  | nil => intro _; simp [splitOnChar]
  | cons c cs ih =>
    intro h
    have hc : ¬ c = sep := fun hc => h (hc ▸ List.mem_cons_self c cs)
    have hcs : sep ∉ cs := fun hm => h (List.mem_cons_of_mem c hm)
    simp [splitOnChar, hc, ih hcs]

lemma findSubSuffix_self (n b : List Char) (hn : n ≠ []) :
    findSubSuffix n (n ++ b) = some b := by
  cases n with
  | nil => exact absurd rfl hn
  | cons c s =>
    show findSubSuffix (c :: s) (c :: (s ++ b)) = some b
    have hpre : isPrefixL (c :: s) (c :: (s ++ b)) = true := isPrefixL_append_self (c :: s) b
    simp [findSubSuffix, hpre, List.drop_left]

lemma isPrefixL_colonSpace_cons_false {x : Char} (h : x ≠ ':') (t : List Char) :
    isPrefixL colonSpace (x :: t) = false := by
  rw [show colonSpace = ':' :: " ".data from rfl]
  exact isPrefixL_cons_false (Ne.symm h) _ _

lemma findSubSuffix_after (b : List Char) :
    ∀ pre : List Char, (∀ x ∈ pre, x ≠ ':') →
      findSubSuffix colonSpace (pre ++ (colonSpace ++ b)) = some b := by
  intro pre
  induction pre with
  | nil =>
    intro _
    simpa using findSubSuffix_self colonSpace b (by decide)
  | cons x pre ih =>
    intro h
    have hx : x ≠ ':' := h x (List.mem_cons_self x pre)
    have hrest : ∀ y ∈ pre, y ≠ ':' := fun y hy => h y (List.mem_cons_of_mem x hy)
    show findSubSuffix colonSpace (x :: (pre ++ (colonSpace ++ b))) = some b
    simp [findSubSuffix, isPrefixL_colonSpace_cons_false hx, ih hrest]

lemma dropWhile_append_cons {p : Char → Bool} {d : Char} (hd : p d = false) (y : List Char) :
    ∀ x : List Char, List.dropWhile p (x ++ d :: y) = List.dropWhile p x ++ d :: y := by
  intro x
  induction x with
  | nil => simp [List.dropWhile_cons, hd]
  | cons c cs ih =>
    by_cases hc : p c = true
    · simp [List.dropWhile_cons, hc, ih]
    · simp [List.dropWhile_cons, hc]

lemma stripL_append (pre t : List Char) (hne : pre ≠ [])
    (hws : ∀ c ∈ pre, c.isWhitespace = false) :
    stripL (pre ++ t) = pre ++ (t.reverse.dropWhile Char.isWhitespace).reverse := by
  unfold stripL
  have hfront : List.dropWhile Char.isWhitespace (pre ++ t) = pre ++ t := by
    cases pre with
    | nil => exact absurd rfl hne
    | cons a as =>
      simp [List.dropWhile_cons, hws a (List.mem_cons_self a as)]
  rw [hfront]
  rcases hrev : pre.reverse with _ | ⟨d, y⟩
  · exact absurd (List.reverse_eq_nil_iff.mp hrev) hne
  · have hd : d.isWhitespace = false := by
      have : d ∈ pre.reverse := by rw [hrev]; exact List.mem_cons_self d y
      exact hws d (List.mem_reverse.mp this)
    rw [List.reverse_append, hrev, dropWhile_append_cons hd]
    rw [List.reverse_append, ← hrev, List.reverse_reverse]

lemma stripL_cons2 (a b : Char) (t : List Char)
    (ha : a.isWhitespace = false) (hb : b.isWhitespace = false) :
    stripL (a :: b :: t) = a :: b :: (t.reverse.dropWhile Char.isWhitespace).reverse := by
  have h := stripL_append [a, b] t (by simp) (by
    intro c hc
    simp only [List.mem_cons, List.not_mem_nil, or_false] at hc
    rcases hc with rfl | rfl
    · exact ha
    · exact hb)
  simpa using h

/-! ## Entry-analysis lemmas (for C4) -/

lemma rankChar_not_ws (r : Nat) : (rankChar r).isWhitespace = false := by
  unfold rankChar
  split <;> decide

lemma apos_ne_rankChar (r : Nat) : apos ≠ rankChar r := by
  unfold rankChar
  split <;> decide

lemma nl_ne_rankChar (r : Nat) : nlChar ≠ rankChar r := by
  unfold rankChar
  split <;> decide

lemma apos_not_dotSpace : apos ∉ ". ".data := by decide

lemma apos_not_space : apos ∉ " ".data := by decide

lemma apos_not_scoreWord : apos ∉ "Score:".data := by decide

lemma apos_not_inWord : apos ∉ "in ".data := by decide

lemma nl_not_dotSpace : nlChar ∉ ". ".data := by decide

lemma nl_not_space : nlChar ∉ " ".data := by decide

lemma nl_not_scoreWord : nlChar ∉ "Score:".data := by decide

lemma nl_not_inWord : nlChar ∉ "in ".data := by decide

lemma nl_ne_apos : nlChar ≠ apos := by decide

lemma nl_not_linesMarker : nlChar ∉ linesMarker := by decide

lemma nl_not_colonSpace : nlChar ∉ colonSpace := by decide

lemma apos_not_headPrefix (r : Nat) : apos ∉ headPrefix r := by
  simp [headPrefix, List.mem_cons, apos_ne_rankChar r]
  decide

lemma nl_not_headPrefix (r : Nat) : nlChar ∉ headPrefix r := by
  simp [headPrefix, List.mem_cons, nl_ne_rankChar r]
  decide

lemma apos_not_scoreMid {sc : String} (hsc : apos ∉ sc.data) : apos ∉ scoreMid sc := by
  simp only [scoreMid, List.mem_append, not_or]
  exact ⟨apos_not_space, apos_not_scoreWord, apos_not_space, hsc, apos_not_space,
    apos_not_inWord⟩

lemma nl_not_scoreMid {sc : String} (hsc : nlChar ∉ sc.data) : nlChar ∉ scoreMid sc := by
  simp only [scoreMid, List.mem_append, not_or]
  exact ⟨nl_not_space, nl_not_scoreWord, nl_not_space, hsc, nl_not_space, nl_not_inWord⟩

lemma isRankLine_rank (r : Nat) (h1 : 1 ≤ r) (h5 : r ≤ 5) (t : List Char) :
    isRankLine (rankChar r :: '.' :: t) = true := by
  have e1 : "1.".data = ['1', '.'] := rfl
  have e2 : "2.".data = ['2', '.'] := rfl
  have e3 : "3.".data = ['3', '.'] := rfl
  have e4 : "4.".data = ['4', '.'] := rfl
  have e5 : "5.".data = ['5', '.'] := rfl
  interval_cases r <;>
  · unfold isRankLine
    rw [stripL_cons2 _ _ t (by decide) (by decide), e1, e2, e3, e4, e5,
      isPrefixL_two, isPrefixL_two, isPrefixL_two, isPrefixL_two, isPrefixL_two]
    decide

lemma isRankLine_linesStart (t : List Char) : isRankLine ('L' :: 'i' :: t) = false := by
  have e1 : "1.".data = ['1', '.'] := rfl
  have e2 : "2.".data = ['2', '.'] := rfl
  have e3 : "3.".data = ['3', '.'] := rfl
  have e4 : "4.".data = ['4', '.'] := rfl
  have e5 : "5.".data = ['5', '.'] := rfl
  unfold isRankLine
  rw [stripL_cons2 'L' 'i' t (by decide) (by decide), e1, e2, e3, e4, e5,
    isPrefixL_two, isPrefixL_two, isPrefixL_two, isPrefixL_two, isPrefixL_two]
  decide

lemma parseStep_header (cur : Option Chunk) (r : Nat) (nm sc fl rg bd : String)
    (h : EntryWF ⟨r, nm, sc, fl, rg, bd⟩) :
    parseStep cur (entryHeader ⟨r, nm, sc, fl, rg, bd⟩) = (some ⟨nm, fl, ""⟩, []) := by
  obtain ⟨h1, h5, hna, hsa, hfa, hrc, hnn, hsn, hfn, hrn, hbn⟩ := h
  have hsplit : splitOnChar apos (entryHeader ⟨r, nm, sc, fl, rg, bd⟩)
      = [headPrefix r, nm.data, scoreMid sc, fl.data] := by
    dsimp only [entryHeader]
    rw [splitOnChar_append_sep apos _ _ (apos_not_headPrefix r),
      splitOnChar_append_sep apos _ _ hna,
      splitOnChar_append_sep apos _ _ (apos_not_scoreMid hsa),
      splitOnChar_sepFree apos _ hfa]
  have hrank : isRankLine (entryHeader ⟨r, nm, sc, fl, rg, bd⟩) = true := by
    dsimp only [entryHeader, headPrefix]
    exact isRankLine_rank r h1 h5 _
  have hscore : containsSubL scoreMarker (entryHeader ⟨r, nm, sc, fl, rg, bd⟩) = true := by
    dsimp only [entryHeader]
    apply containsSubL_append_left
    apply containsSubL_cons
    apply containsSubL_append_left
    apply containsSubL_cons
    dsimp only [scoreMid]
    rw [List.append_assoc]
    apply containsSubL_append_left
    rw [List.append_assoc]
    exact containsSubL_of_prefix (isPrefixL_append_self _ _)
  have hin : containsSubL inMarker (entryHeader ⟨r, nm, sc, fl, rg, bd⟩) = true := by
    dsimp only [entryHeader]
    apply containsSubL_append_left
    apply containsSubL_cons
    apply containsSubL_append_left
    apply containsSubL_cons
    dsimp only [scoreMid]
    rw [List.append_assoc]
    apply containsSubL_append_left
    rw [List.append_assoc]
    apply containsSubL_append_left
    rw [List.append_assoc]
    apply containsSubL_append_left
    rw [List.append_assoc]
    apply containsSubL_append_left
    rw [List.append_assoc]
    apply containsSubL_append_left
    exact containsSubL_of_prefix (isPrefixL_append_self _ _)
  simp only [parseStep, hrank, hscore, hsplit, hin, if_true]
  simp [List.getD, pyLast]

lemma parseStep_body (c : Chunk) (r : Nat) (nm sc fl rg bd : String)
    (h : EntryWF ⟨r, nm, sc, fl, rg, bd⟩) :
    parseStep (some c) (entryBody ⟨r, nm, sc, fl, rg, bd⟩)
      = (none, [⟨c.name, c.file, bd⟩]) := by
  obtain ⟨h1, h5, hna, hsa, hfa, hrc, hnn, hsn, hfn, hrn, hbn⟩ := h
  have hnr : isRankLine (entryBody ⟨r, nm, sc, fl, rg, bd⟩) = false := by
    dsimp only [entryBody]
    exact isRankLine_linesStart _
  have hlines : isPrefixL linesMarker (stripL (entryBody ⟨r, nm, sc, fl, rg, bd⟩)) = true := by
    dsimp only [entryBody]
    rw [stripL_append linesMarker _ (by decide) (by decide)]
    exact isPrefixL_append_self _ _
  have hfind : findSubSuffix colonSpace (entryBody ⟨r, nm, sc, fl, rg, bd⟩)
      = some bd.data := by
    dsimp only [entryBody]
    have hshape : linesMarker ++ (" ".data ++ (rg.data ++ (colonSpace ++ bd.data)))
        = (linesMarker ++ (" ".data ++ rg.data)) ++ (colonSpace ++ bd.data) := by
      simp [List.append_assoc]
    rw [hshape]
    apply findSubSuffix_after
    intro x hx
    simp only [List.mem_append] at hx
    rcases hx with hx | hx | hx
    · intro hcontra; subst hcontra; exact absurd hx (by decide)
    · intro hcontra; subst hcontra; exact absurd hx (by decide)
    · intro hcontra; subst hcontra; exact absurd hx hrc
  simp only [parseStep, hnr, hlines, hfind]
  simp

lemma parseStep_junk {l : List Char} (cur : Option Chunk) (h : junkLine l = true) :
    parseStep cur l = (cur, []) := by
  simp only [junkLine, Bool.and_eq_true, Bool.not_eq_true'] at h
  obtain ⟨h1, h2⟩ := h
  simp [parseStep, h1, h2]

/-! ## Block-level parsing lemmas and claim C4 -/

lemma parseChunks_cons (line : List Char) (rest : List (List Char)) (cur : Option Chunk) :
    parseChunks (line :: rest) cur
      = (parseStep cur line).2 ++ parseChunks rest (parseStep cur line).1 := rfl

lemma nl_not_mem_entryHeader (r : Nat) (nm sc fl rg bd : String)
    (h : EntryWF ⟨r, nm, sc, fl, rg, bd⟩) :
    nlChar ∉ entryHeader ⟨r, nm, sc, fl, rg, bd⟩ := by
  obtain ⟨h1, h5, hna, hsa, hfa, hrc, hnn, hsn, hfn, hrn, hbn⟩ := h
  dsimp only [entryHeader]
  simp only [List.mem_append, List.mem_cons, not_or]
  exact ⟨nl_not_headPrefix r, nl_ne_apos, hnn, nl_ne_apos, nl_not_scoreMid hsn,
    nl_ne_apos, hfn⟩

lemma nl_not_mem_entryBody (r : Nat) (nm sc fl rg bd : String)
    (h : EntryWF ⟨r, nm, sc, fl, rg, bd⟩) :
    nlChar ∉ entryBody ⟨r, nm, sc, fl, rg, bd⟩ := by
  obtain ⟨h1, h5, hna, hsa, hfa, hrc, hnn, hsn, hfn, hrn, hbn⟩ := h
  dsimp only [entryBody]
  simp only [List.mem_append, not_or]
  exact ⟨nl_not_linesMarker, nl_not_space, hrn, nl_not_colonSpace, hbn⟩

lemma nl_not_mem_entryLines (e : SearchEntry) (h : EntryWF e) :
    ∀ l ∈ entryLines e, nlChar ∉ l := by
  obtain ⟨r, nm, sc, fl, rg, bd⟩ := e
  intro l hl
  simp only [entryLines, List.mem_cons] at hl
  rcases hl with rfl | rfl | h0
  · exact nl_not_mem_entryHeader r nm sc fl rg bd h
  · exact nl_not_mem_entryBody r nm sc fl rg bd h
  · exact absurd h0 (List.not_mem_nil l)

lemma parseChunks_entries : ∀ es : List SearchEntry, (∀ e ∈ es, EntryWF e) →
    ∀ tail : List (List Char),
      parseChunks (es.flatMap entryLines ++ tail) none
        = es.map toChunk ++ parseChunks tail none := by
  intro es
  induction es with
  | nil => intro _ tail; simp
  | cons e es ih =>
    intro h tail
    obtain ⟨r, nm, sc, fl, rg, bd⟩ := e
    have hwf := h _ (List.mem_cons_self _ _)
    have hrest : ∀ x ∈ es, EntryWF x := fun x hx => h x (List.mem_cons_of_mem _ hx)
    have hshape : ((⟨r, nm, sc, fl, rg, bd⟩ : SearchEntry) :: es).flatMap entryLines ++ tail
        = entryHeader ⟨r, nm, sc, fl, rg, bd⟩ :: entryBody ⟨r, nm, sc, fl, rg, bd⟩
            :: (es.flatMap entryLines ++ tail) := by
      simp [entryLines]
    rw [hshape, parseChunks_cons, parseStep_header none r nm sc fl rg bd hwf]
    dsimp only
    rw [parseChunks_cons, parseStep_body ⟨nm, fl, ""⟩ r nm sc fl rg bd hwf]
    dsimp only
    rw [ih hrest tail]
    simp [toChunk]

lemma parseChunks_filter_junk : ∀ (ls : List (List Char)) (cur : Option Chunk),
    parseChunks ls cur = parseChunks (ls.filter fun l => !(junkLine l)) cur := by
  intro ls
  induction ls with
  | nil => intro cur; rfl
  | cons l ls ih =>
    intro cur
    by_cases hj : junkLine l = true
    · rw [parseChunks_cons, parseStep_junk cur hj]
      simp only [List.nil_append]
      rw [ih cur]
      simp [List.filter_cons, hj]
    · have hj' : junkLine l = false := by revert hj; cases junkLine l <;> simp
      simp [List.filter_cons, hj', parseChunks_cons, ih]

lemma joinLines_split : ∀ lines : List (List Char), (∀ l ∈ lines, nlChar ∉ l) →
    lines ≠ [] → splitOnChar nlChar (joinLines lines) = lines := by
  intro lines
  induction lines with
  | nil => intro _ h; exact absurd rfl h
  | cons l ls ih =>
    intro h _
    cases ls with
    | nil =>
      exact splitOnChar_sepFree nlChar l (h l (List.mem_cons_self l []))
    | cons l2 ls2 =>
      rw [show joinLines (l :: l2 :: ls2) = l ++ nlChar :: joinLines (l2 :: ls2) from rfl]
      rw [splitOnChar_append_sep nlChar _ _ (h l (List.mem_cons_self l _))]
      rw [ih (fun x hx => h x (List.mem_cons_of_mem l hx)) (by simp)]

/-- C4: (i) for every list of well-formed ranked entries, parsing the joined
text block (lines separated by newlines, as in the subprocess stdout) yields
exactly the entries' chunks, in the order the entries appear, with name,
source file and body correctly extracted — in particular a well-formed
5-entry block yields exactly 5 chunks in rank order, and a reordered block
still yields all its entries in appearance order; (ii) a truncated block —
any prefix of entries followed by leftover lines — yields those entries'
chunks followed by whatever the leftover parses to (a dangling header line
contributes nothing), without raising; (iii) any line matching neither the
rank shape nor the "Lines" shape is ignored by the parser. -/
theorem C4_retrieval_parse :
    (∀ es : List SearchEntry, (∀ e ∈ es, EntryWF e) →
      run_parse (String.mk (joinLines (es.flatMap entryLines))) = es.map toChunk) ∧
    (∀ (es : List SearchEntry) (tail : List (List Char)), (∀ e ∈ es, EntryWF e) →
      parseChunks (es.flatMap entryLines ++ tail) none
        = es.map toChunk ++ parseChunks tail none) ∧
    (∀ (ls : List (List Char)) (cur : Option Chunk),
      parseChunks ls cur = parseChunks (ls.filter fun l => !(junkLine l)) cur) ∧
    (∀ e : SearchEntry, EntryWF e → parseChunks [entryHeader e] none = []) := by
  refine ⟨?_, fun es tail h => parseChunks_entries es h tail, parseChunks_filter_junk, ?_⟩
  · intro es h
    rcases es with _ | ⟨e, es'⟩
    · rfl
    · have hnl : ∀ l ∈ (e :: es').flatMap entryLines, nlChar ∉ l := by
        intro l hl
        rw [List.mem_flatMap] at hl
        obtain ⟨e', he', hle⟩ := hl
        exact nl_not_mem_entryLines e' (h e' he') l hle
      have hne : (e :: es').flatMap entryLines ≠ [] := by
        simp [List.flatMap_cons, entryLines]
      unfold run_parse
      rw [show (String.mk (joinLines ((e :: es').flatMap entryLines))).data
          = joinLines ((e :: es').flatMap entryLines) from rfl]
      rw [joinLines_split _ hnl hne]
      have hmain := parseChunks_entries (e :: es') h []
      simpa [show parseChunks ([] : List (List Char)) none = ([] : List Chunk) from rfl]
        using hmain
  · intro e he
    obtain ⟨r, nm, sc, fl, rg, bd⟩ := e
    rw [parseChunks_cons, parseStep_header none r nm sc fl rg bd he]
    rfl

/-- Witness for C4: a concrete well-formed 5-entry block parses to exactly the
5 expected chunks, in rank order. -/
theorem C4_retrieval_parse_witness :
    run_parse (String.mk (joinLines (sampleEntries.flatMap entryLines)))
      = sampleEntries.map toChunk ∧
    sampleEntries.map toChunk
      = [⟨"fn parse_args", "src/main.rs", "fn parse_args() -> Args"⟩,
         ⟨"fn run_indexer", "src/bin/indexer.rs", "fn run_indexer()"⟩,
         ⟨"fn chunk_file", "src/index/chunker.rs", "pub fn chunk_file(path: &Path)"⟩,
         ⟨"fn embed", "src/index/embedder.rs", "pub fn embed(text: &str)"⟩,
         ⟨"fn store", "src/index/vector_store.rs", "pub fn store(v: Vec<f32>)"⟩] :=
  ⟨C4_retrieval_parse.1 sampleEntries (by decide), rfl⟩
